import Mathlib

/-!
# Verification of the UnrealLogParser core (`uelogparser/parser.py`)

A shallow embedding of the parser: lines of the input stream are modelled as
`List Char` values with the trailing line terminator already stripped (Python's
`readline` yields `'\n'`-terminated lines; every regex and string operation of
the source behaves identically on the stripped line, which is proved where it
matters).  Exceptions are modelled with `Except`; the regular expressions of the
source are embedded as executable functions that reproduce the backtracking
behaviour of Python's `re.match` on the concrete patterns used.  The `\d` and
`\s` character classes are modelled over their ASCII ranges (the log format is
ASCII).
-/

set_option maxRecDepth 4000

deriving instance DecidableEq for Except

namespace UELog

/-- ASCII digit, the `\d` class of the source pattern. -/
def isDig (c : Char) : Bool := '0' ≤ c && c ≤ '9'

/-- ASCII whitespace, the `\s` class of the source pattern. -/
def isPySpace (c : Char) : Bool :=
  c == ' ' || c == '\t' || c == '\n' || c == '\r' || c == '\x0b' || c == '\x0c'

/-- Substring test, Python's `pat in line`. -/
def containsSub (pat : List Char) : List Char → Bool
  | [] => pat.isEmpty
  | c :: r => pat.isPrefixOf (c :: r) || containsSub pat r

/-- Numeric value of a list of ASCII digits (value of the matched group). -/
def digitsToNat (l : List Char) : Nat :=
  l.foldl (fun a c => a * 10 + (c.toNat - '0'.toNat)) 0

/-- Digit/underscore shape accepted by Python's `int()` after the sign:
digits with single interior underscores. -/
def pyIntRest : List Char → Bool
  | [] => true
  | c :: r =>
    if c = '_' then
      match r with
      | [] => false
      | c' :: r' => isDig c' && pyIntRest r'
    else isDig c && pyIntRest r

def pyIntOk : List Char → Bool
  | [] => false
  | c :: r => isDig c && pyIntRest r

def pyIntDigits (l : List Char) : Option Nat :=
  if pyIntOk l then some (digitsToNat (l.filter (fun c => !(c == '_')))) else none

/-- Strip leading and trailing Python whitespace, as `int()` does. -/
def stripWs (s : List Char) : List Char :=
  ((s.dropWhile isPySpace).reverse.dropWhile isPySpace).reverse

/-- Python's `int(s)` on a string, `none` models the raised `ValueError`. -/
def pyInt (s : List Char) : Option Int :=
  match stripWs s with
  | [] => none
  | c :: r =>
    if c = '+' then (pyIntDigits r).map (fun n => (n : Int))
    else if c = '-' then (pyIntDigits r).map (fun n => -(n : Int))
    else (pyIntDigits (c :: r)).map (fun n => (n : Int))

/-! ## Data model (`Verbosity`, `Log`, exceptions, `datetime`) -/

inductive Verbosity
  | Log
  | Warning
  | Error
  | Display
  deriving DecidableEq, Repr

/-- The keyword text of an explicit verbosity token. -/
def verbKw : Verbosity → List Char
  | .Warning => "Warning".data
  | .Error => "Error".data
  | .Display => "Display".data
  | .Log => []

/-- Python `datetime` value carrying a fixed-offset `tzinfo`
(`tz` is the UTC offset in minutes). -/
structure Datetime where
  year : Nat
  month : Nat
  day : Nat
  hour : Nat
  minute : Nat
  second : Nat
  microsecond : Nat
  tz : Int
  deriving DecidableEq, Repr

def isLeapYear (y : Nat) : Bool := y % 4 == 0 && (y % 100 != 0 || y % 400 == 0)

def daysInMonth (y m : Nat) : Nat :=
  if m = 2 then (if isLeapYear y then 29 else 28)
  else if m = 4 || m = 6 || m = 9 || m = 11 then 30
  else 31

/-- The `datetime(...)` constructor; `none` models the raised `ValueError`
when a field is out of range. -/
def mkDatetime (y mo d h mi s us : Nat) (tz : Int) : Option Datetime :=
  if 1 ≤ y ∧ y ≤ 9999 ∧ 1 ≤ mo ∧ mo ≤ 12 ∧ 1 ≤ d ∧ d ≤ daysInMonth y mo ∧
      h ≤ 23 ∧ mi ≤ 59 ∧ s ≤ 59 ∧ us ≤ 999999 then
    some ⟨y, mo, d, h, mi, s, us, tz⟩
  else none

/-- The `Log` dataclass of the source. -/
structure Log where
  date : Datetime
  verbosity : Verbosity
  category : List Char
  log : List Char
  log_body : List Char
  deriving DecidableEq, Repr

/-- Python exceptions that the parser can raise. `valueError` also stands
for the (equally fatal) `OverflowError` of a huge `timedelta`. -/
inductive PyError
  | initializationError
  | valueError
  | attributeError
  deriving DecidableEq, Repr

/-! ## Embedded regular expressions -/

/-- `(.+)` unanchored: the maximal nonempty run of non-newline characters
starting here. -/
def matchDotPlus (s : List Char) : Option (List Char) :=
  let r := s.takeWhile (fun c => !(c == '\n'))
  if r.isEmpty then none else some r

/-- `(.+)$` (no MULTILINE): the rest of the string, which must be nonempty,
newline-free except for an optional final `'\n'`. -/
def matchDotPlusDollar (s : List Char) : Option (List Char) :=
  let r := s.takeWhile (fun c => !(c == '\n'))
  let rest := s.dropWhile (fun c => !(c == '\n'))
  if r.isEmpty then none
  else if rest = [] ∨ rest = ['\n'] then some r else none

/-- `\s+(.+)` unanchored at the end of a pattern: one or more whitespace
characters, then the greedy nonempty remainder (with the backtracking that
Python's engine performs when everything after the whitespace run would be
empty or a newline). -/
def matchWsDotPlus (after : List Char) : Option (List Char) :=
  let ws := after.takeWhile isPySpace
  let tl := after.dropWhile isPySpace
  if ws.isEmpty then none
  else
    match matchDotPlus tl with
    | some rem => some rem
    | none =>
      -- `tl` is empty: `\s+` gives characters back to `(.+)` one by one;
      -- the match lands on the last whitespace character not followed by
      -- newlines, provided at least one whitespace character remains in `\s+`.
      let core := (ws.reverse.dropWhile (fun c => c == '\n')).reverse
      if 2 ≤ core.length then some [core.getLastD ' '] else none

/-- `re.match` of `_split_log_category = ([^:]+):\s+(.+)`. -/
def split_log_category (s : List Char) : Option (List Char × List Char) :=
  let cat := s.takeWhile (fun c => !(c == ':'))
  match s.dropWhile (fun c => !(c == ':')) with
  | [] => none
  | _ :: after =>
    -- the dropped head is the first `':'` of `s`
    if cat.isEmpty then none
    else
      match matchWsDotPlus after with
      | some rem => some (cat, rem)
      | none => none

/-- One alternative of `_split_log_verbosity`: `kw` followed by `':'`,
whitespace and the remainder. -/
def tryVerbosity (kw : List Char) (s : List Char) : Option (List Char) :=
  if (kw ++ [':']).isPrefixOf s then matchWsDotPlus (s.drop (kw.length + 1))
  else none

/-- `re.match` of `_split_log_verbosity = (Warning|Error|Display):\s+(.+)`. -/
def split_log_verbosity (s : List Char) : Option (Verbosity × List Char) :=
  match tryVerbosity "Warning".data s with
  | some b => some (.Warning, b)
  | none =>
    match tryVerbosity "Error".data s with
    | some b => some (.Error, b)
    | none =>
      match tryVerbosity "Display".data s with
      | some b => some (.Display, b)
      | none => none

/-- The eight groups of `_log_start_pattern`. -/
structure HeaderGroups where
  g1 : List Char
  g2 : List Char
  g3 : List Char
  g4 : List Char
  g5 : List Char
  g6 : List Char
  g7 : List Char
  g8 : List Char
  deriving DecidableEq, Repr

/-- One-or-more digits (`\d+`) followed by the rest. -/
def takeNum (s : List Char) : Option (List Char × List Char) :=
  let d := s.takeWhile isDig
  if d.isEmpty then none else some (d, s.dropWhile isDig)

/-- A single expected literal character. -/
def expectC (c : Char) : List Char → Option (List Char)
  | [] => none
  | x :: r => if x = c then some r else none

/-- One numeric group `(\d+)` followed by the literal separator `sep`. -/
def field (sep : Char) (s : List Char) : Option (List Char × List Char) :=
  match takeNum s with
  | none => none
  | some (d, r) => (expectC sep r).map (fun r' => (d, r'))

/-- The second bracket `[[\s\d]+\]` and the trailing `(.+)$` group. -/
def tidAndRest (r : List Char) : Option (List Char) :=
  let tid := r.takeWhile (fun c => isPySpace c || isDig c)
  let r2 := r.dropWhile (fun c => isPySpace c || isDig c)
  if tid.isEmpty then none
  else (expectC ']' r2).bind matchDotPlusDollar

/-- `re.match` of
`_log_start_pattern = ^\[(\d+)\.(\d+)\.(\d+)-(\d+)\.(\d+)\.(\d+):(\d+)\]\[[\s\d]+\](.+)$`. -/
def logStartMatch (l : List Char) : Option HeaderGroups :=
  (expectC '[' l).bind fun r0 =>
  (field '.' r0).bind fun q1 =>
  (field '.' q1.2).bind fun q2 =>
  (field '-' q2.2).bind fun q3 =>
  (field '.' q3.2).bind fun q4 =>
  (field '.' q4.2).bind fun q5 =>
  (field ':' q5.2).bind fun q6 =>
  (field ']' q6.2).bind fun q7 =>
  (expectC '[' q7.2).bind fun r8 =>
  (tidAndRest r8).map fun g8 =>
    ⟨q1.1, q2.1, q3.1, q4.1, q5.1, q6.1, q7.1, g8⟩

/-- `Parser._is_logstart`. -/
def is_logstart (l : List Char) : Bool := (logStartMatch l).isSome

/-- `Parser._parse_log_start_line`.  `.error` models a raised exception,
`.ok none` the `None` returned on a category-split failure. -/
def parse_log_start_line (tz : Int) (l : List Char) : Except PyError (Option Log) :=
  match logStartMatch l with
  | none => .error .attributeError
  | some g =>
    match mkDatetime (digitsToNat g.g1) (digitsToNat g.g2) (digitsToNat g.g3)
        (digitsToNat g.g4) (digitsToNat g.g5) (digitsToNat g.g6)
        (digitsToNat g.g7 * 1000) tz with
    | none => .error .valueError
    | some time =>
      match split_log_category g.g8 with
      | none => .ok none
      | some (category, rem) =>
        match split_log_verbosity rem with
        | some (v, body) => .ok (some ⟨time, v, category, g.g8, body⟩)
        | none => .ok (some ⟨time, .Log, category, g.g8, rem⟩)

/-! ## Timezone resolver (`Parser.__init__`) -/

/-- The substring gate of `Parser.__init__` (line 57 of the source). -/
def tzDetectMarker : List Char := "TimeZone Detection".data

/-- The literal part of `_extract_time_zone_pattern`. -/
def tzMarker : List Char := "Raw Offset:".data

/-- The `\s*([^:]+):(\d+)` continuation of `_extract_time_zone_pattern`,
applied to the text following `Raw Offset:`.  The matched `':'` is the first
colon of `s` (neither `\s` nor `[^:]` can consume a colon); `group(1)` is the
text between the maximal whitespace run and that colon, except that when that
text is empty the greedy `\s*` gives back its last character. -/
def tzAfterMarker (s : List Char) : Option (List Char × List Char) :=
  let before := s.takeWhile (fun c => !(c == ':'))
  match s.dropWhile (fun c => !(c == ':')) with
  | [] => none
  | _ :: after =>
    if before.isEmpty then none
    else
      let ds := after.takeWhile isDig
      if ds.isEmpty then none
      else
        match before.dropWhile isPySpace with
        | [] => some ([before.getLastD ' '], ds)
        | g1 => some (g1, ds)

/-- Backtracking search of the greedy `.+` before `Raw Offset:`: candidate
positions are tried from the rightmost one; a position after a newline is
unreachable because `.` does not match `'\n'`. -/
def tzFind : List Char → Option (List Char × List Char)
  | [] => none
  | c :: r =>
    match (if c == '\n' then none else tzFind r) with
    | some g => some g
    | none =>
      if tzMarker.isPrefixOf (c :: r) then tzAfterMarker ((c :: r).drop tzMarker.length)
      else none

/-- `re.match` of `_extract_time_zone_pattern = .+Raw Offset:\s*([^:]+):(\d+)`:
the `.+` forces at least one (non-newline) character before the literal. -/
def extract_time_zone_match (l : List Char) : Option (List Char × List Char) :=
  match l with
  | [] => none
  | c :: r => if c == '\n' then none else tzFind r

/-- Lines 58–60 of the source: regex match, `int()` on both groups,
`timedelta(hours=.., minutes=..)` and the `timezone()` range check.  The
result is the UTC offset in minutes. -/
def resolve_tz_line (l : List Char) : Except PyError Int :=
  match extract_time_zone_match l with
  | none => .error .attributeError
  | some (g1, g2) =>
    match pyInt g1, pyInt g2 with
    | some h, some m =>
      let ofs := h * 60 + m
      if -1440 < ofs ∧ ofs < 1440 then .ok ofs else .error .valueError
    | _, _ => .error .valueError

/-- The constructor loop of `Parser.__init__`: scan for the first line
containing `TimeZone Detection`, resolve the offset from it, and leave the
cursor after it; raise `InitializationError` when the stream runs out. -/
def initParser : List (List Char) → Except PyError (Int × List (List Char))
  | [] => .error .initializationError
  | l :: ls =>
    if containsSub tzDetectMarker l then
      match resolve_tz_line l with
      | .ok ofs => .ok (ofs, ls)
      | .error e => .error e
    else initParser ls

/-! ## Record scanner (`Parser.read`) -/

/-- Folding one continuation line into the open record
(`log.log += '\n' + line.replace('\n','')`, same for `log_body`; lines are
stored without their terminator, so `replace` is the identity). -/
def foldLine (log : Log) (l : List Char) : Log :=
  { log with log := log.log ++ '\n' :: l, log_body := log.log_body ++ '\n' :: l }

/-- The continuation-folding loop of `Parser.read` (lines 86–97): fold
non-header lines into the record until the next header line or the end of the
stream; the terminating header line is pushed back (the `seek` to `prev_pos`). -/
def accumulate (log : Log) : List (List Char) → Log × List (List Char)
  | [] => (log, [])
  | l :: ls =>
    if is_logstart l then (log, l :: ls)
    else accumulate (foldLine log l) ls

/-- `Parser.read`, returning the produced record (or `none` as the
end-of-stream sentinel) together with the remaining stream. -/
def read (tz : Int) : List (List Char) → Except PyError (Option Log × List (List Char))
  | [] => .ok (none, [])
  | l :: ls =>
    if is_logstart l then
      match parse_log_start_line tz l with
      | .error e => .error e
      | .ok none => read tz ls
      | .ok (some log) => .ok (some (accumulate log ls).1, (accumulate log ls).2)
    else read tz ls

/-! ## Definitions taken from the specification's words

These are used to compare the specified behaviour with the embedded source
behaviour; they are deliberately written from the spec text, not from the
source. -/

/-- The header shape claimed by the spec: `[YYYY.MM.DD-HH.MM.SS:mmm]` with
YYYY of four or more digits, two-digit MM/DD/HH/MM/SS, exactly three-digit
mmm, immediately followed by a bracket of digits and/or whitespace. -/
def specHeaderShape (l : List Char) : Bool :=
  (((expectC '[' l).bind fun r0 =>
    (field '.' r0).bind fun q1 =>
    (field '.' q1.2).bind fun q2 =>
    (field '-' q2.2).bind fun q3 =>
    (field '.' q3.2).bind fun q4 =>
    (field '.' q4.2).bind fun q5 =>
    (field ':' q5.2).bind fun q6 =>
    (field ']' q6.2).bind fun q7 =>
    (expectC '[' q7.2).bind fun r8 =>
    let tid := r8.takeWhile (fun c => isPySpace c || isDig c)
    let r9 := r8.dropWhile (fun c => isPySpace c || isDig c)
    if tid.isEmpty then none
    else (expectC ']' r9).map fun _ =>
      decide (4 ≤ q1.1.length) && q2.1.length == 2 && q3.1.length == 2 &&
      q4.1.length == 2 && q5.1.length == 2 && q6.1.length == 2 &&
      q7.1.length == 3).getD false)

/-- The category split claimed by the spec: split at the first occurrence of
the two-character separator `": "`; category is everything before it,
remainder everything after it. -/
def specFindSep : List Char → Option (List Char × List Char)
  | [] => none
  | ':' :: ' ' :: rest => some ([], rest)
  | c :: rest => (specFindSep rest).map (fun p => (c :: p.1, p.2))

/-- The severity split claimed by the spec: one of the three keywords
immediately followed by `": "` at the start of the remainder, else `Log`
with the unchanged remainder. -/
def specSplitVerb (s : List Char) : Verbosity × List Char :=
  if ("Warning: ".data).isPrefixOf s then (.Warning, s.drop 9)
  else if ("Error: ".data).isPrefixOf s then (.Error, s.drop 7)
  else if ("Display: ".data).isPrefixOf s then (.Display, s.drop 9)
  else (.Log, s)

/-- A nonempty run of ASCII digits. -/
def DigitRun (xs : List Char) : Prop := xs ≠ [] ∧ ∀ c ∈ xs, isDig c = true

/-- A nonempty run of whitespace and/or digit characters (the thread-id
bracket's content). -/
def TidRun (xs : List Char) : Prop :=
  xs ≠ [] ∧ ∀ c ∈ xs, (isPySpace c || isDig c) = true

/-- Assembling a line from timestamp fields, thread id and trailing text. -/
def headerAssemble (y mo d h mi s ms tid rest : List Char) : List Char :=
  '[' :: (y ++ '.' :: (mo ++ '.' :: (d ++ '-' :: (h ++ '.' :: (mi ++ '.' ::
    (s ++ ':' :: (ms ++ ']' :: '[' :: (tid ++ ']' :: rest))))))))

/-- The header shape actually enforced by the source pattern: every numeric
field is one or more digits, the thread-id bracket is nonempty, and the
trailing text is nonempty. -/
def HeaderShapeRelaxed (l : List Char) : Prop :=
  ∃ y mo d h mi s ms tid rest,
    DigitRun y ∧ DigitRun mo ∧ DigitRun d ∧ DigitRun h ∧ DigitRun mi ∧
    DigitRun s ∧ DigitRun ms ∧ TidRun tid ∧ rest ≠ [] ∧
    l = headerAssemble y mo d h mi s ms tid rest

/-- A line consisting of the two leading bracket groups with nothing at all
after the second bracket. -/
def BracketsOnlyShape (l : List Char) : Prop :=
  ∃ y mo d h mi s ms tid,
    DigitRun y ∧ DigitRun mo ∧ DigitRun d ∧ DigitRun h ∧ DigitRun mi ∧
    DigitRun s ∧ DigitRun ms ∧ TidRun tid ∧
    l = headerAssemble y mo d h mi s ms tid []

/-- All numeric fields of a header-shaped line denote a valid
`datetime` (with the millisecond group scaled to microseconds); vacuously
true for non-header lines. -/
def headerFieldsOk (tz : Int) (l : List Char) : Bool :=
  match logStartMatch l with
  | none => true
  | some g =>
    (mkDatetime (digitsToNat g.g1) (digitsToNat g.g2) (digitsToNat g.g3)
      (digitsToNat g.g4) (digitsToNat g.g5) (digitsToNat g.g6)
      (digitsToNat g.g7 * 1000) tz).isSome

/-- A canonical timezone announcement line
`x TimeZone Detection Raw Offset: <sign><hs>:<ms>`. -/
def mkTzLine (neg : Bool) (hs ms : List Char) : List Char :=
  'x' :: (" TimeZone Detection ".data ++ (tzMarker ++
    (' ' :: (if neg then '-' else '+') :: (hs ++ ':' :: ms))))

/-- The offset the source computes from an announcement: signed hours times
sixty plus the (never sign-combined) minutes. -/
def tzOfsOf (neg : Bool) (hs ms : List Char) : Int :=
  (if neg then -(digitsToNat hs : Int) else (digitsToNat hs : Int)) * 60 +
    (digitsToNat ms : Int)

/-! ## List helper lemmas -/

lemma takeWhile_all_append {p : Char → Bool} {xs : List Char} {y : Char} (r : List Char)
    (hxs : ∀ c ∈ xs, p c = true) (hy : p y = false) :
    (xs ++ y :: r).takeWhile p = xs := by
  induction xs with
  | nil => simp [List.takeWhile_cons, hy]
  | cons a as ih =>
    simp only [List.cons_append, List.takeWhile_cons, hxs a (by simp), if_true]
    rw [ih (fun c hc => hxs c (by simp [hc]))]

lemma dropWhile_all_append {p : Char → Bool} {xs : List Char} {y : Char} (r : List Char)
    (hxs : ∀ c ∈ xs, p c = true) (hy : p y = false) :
    (xs ++ y :: r).dropWhile p = y :: r := by
  induction xs with
  | nil => simp [List.dropWhile_cons, hy]
  | cons a as ih =>
    simp only [List.cons_append, List.dropWhile_cons, hxs a (by simp), if_true]
    exact ih (fun c hc => hxs c (by simp [hc]))

lemma dropWhile_head_false {p : Char → Bool} {l t : List Char} {h : Char}
    (hd : l.dropWhile p = h :: t) : p h = false := by
  induction l with
  | nil => simp at hd
  | cons a as ih =>
    rw [List.dropWhile_cons] at hd
    by_cases hpa : p a = true
    · exact ih (by simpa [hpa] using hd)
    · rw [if_neg hpa] at hd
      cases hd
      simpa using hpa

lemma dropWhile_all_false {p : Char → Bool} {l : List Char}
    (hl : ∀ c ∈ l, p c = false) : l.dropWhile p = l := by
  cases l with
  | nil => rfl
  | cons a as => rw [List.dropWhile_cons, if_neg (by simp [hl a (by simp)])]

lemma isPrefOf_self_append (l t : List Char) : l.isPrefixOf (l ++ t) = true := by
  induction l with
  | nil => simp [List.isPrefixOf]
  | cons a as ih => simp [List.isPrefixOf, ih]

lemma isPrefOf_dest {l s : List Char} (h : l.isPrefixOf s = true) :
    ∃ t, s = l ++ t := by
  induction l generalizing s with
  | nil => exact ⟨s, rfl⟩
  | cons a as ih =>
    cases s with
    | nil => simp [List.isPrefixOf] at h
    | cons b bs =>
      simp only [List.isPrefixOf, Bool.and_eq_true, beq_iff_eq] at h
      obtain ⟨rfl, h2⟩ := h
      obtain ⟨t, rfl⟩ := ih h2
      exact ⟨t, rfl⟩

lemma isPrefOf_mono {l s : List Char} (t : List Char) (h : l.isPrefixOf s = true) :
    l.isPrefixOf (s ++ t) = true := by
  obtain ⟨u, rfl⟩ := isPrefOf_dest h
  rw [List.append_assoc]
  exact isPrefOf_self_append l (u ++ t)

lemma containsSub_nil_pat (l : List Char) : containsSub [] l = true := by
  cases l <;> simp [containsSub, List.isPrefixOf]

lemma containsSub_append_left {pat xs : List Char} (t : List Char)
    (h : containsSub pat xs = true) : containsSub pat (xs ++ t) = true := by
  induction xs with
  | nil =>
    simp only [containsSub, List.isEmpty_iff] at h
    subst h
    exact containsSub_nil_pat t
  | cons a as ih =>
    simp only [containsSub, Bool.or_eq_true] at h ⊢
    rcases h with h | h
    · exact Or.inl (isPrefOf_mono t h)
    · exact Or.inr (ih h)

lemma suffix_append_both {b a : List Char} (t : List Char) (h : b <:+ a) :
    b ++ t <:+ a ++ t := by
  obtain ⟨c, rfl⟩ := h
  exact ⟨c, by rw [List.append_assoc]⟩

/-! ## Structural lemmas for the embedded header pattern -/

lemma expectC_self (c : Char) (r : List Char) : expectC c (c :: r) = some r := by
  simp [expectC]

lemma expectC_dest {c : Char} {s r : List Char} (h : expectC c s = some r) :
    s = c :: r := by
  cases s with
  | nil => simp [expectC] at h
  | cons x xs =>
    by_cases hx : x = c
    · subst hx
      rw [expectC_self] at h
      cases h
      rfl
    · simp [expectC, hx] at h

lemma takeNum_dest {s : List Char} {d r : List Char} (h : takeNum s = some (d, r)) :
    DigitRun d ∧ s = d ++ r := by
  unfold takeNum at h
  by_cases he : (s.takeWhile isDig).isEmpty
  · simp [he] at h
  · rw [if_neg he] at h
    cases h
    refine ⟨⟨by simpa [List.isEmpty_iff] using he, fun c hc => List.mem_takeWhile_imp hc⟩, ?_⟩
    exact (List.takeWhile_append_dropWhile (p := isDig) (l := s)).symm

lemma takeNum_build {y : List Char} {c : Char} (r : List Char)
    (hy : DigitRun y) (hc : isDig c = false) :
    takeNum (y ++ c :: r) = some (y, c :: r) := by
  unfold takeNum
  rw [takeWhile_all_append r hy.2 hc, dropWhile_all_append r hy.2 hc,
    if_neg (by simpa [List.isEmpty_iff] using hy.1)]

lemma field_build {y : List Char} {sep : Char} (r : List Char)
    (hy : DigitRun y) (hsep : isDig sep = false) :
    field sep (y ++ sep :: r) = some (y, r) := by
  rw [field, takeNum_build r hy hsep]
  simp [expectC_self]

lemma field_dest {sep : Char} {s d r : List Char} (h : field sep s = some (d, r)) :
    DigitRun d ∧ s = d ++ sep :: r := by
  unfold field at h
  cases htn : takeNum s with
  | none => rw [htn] at h; cases h
  | some q =>
    obtain ⟨d0, r0⟩ := q
    rw [htn] at h
    dsimp only at h
    cases hec : expectC sep r0 with
    | none => rw [hec] at h; cases h
    | some r' =>
      rw [hec] at h
      simp only [Option.map_some'] at h
      cases h
      obtain ⟨hd, hs⟩ := takeNum_dest htn
      exact ⟨hd, by rw [hs, expectC_dest hec]⟩

lemma bool_not_beq_nl {c : Char} (hc : ¬c = '\n') : (!(c == '\n')) = true := by
  simp [hc]

lemma matchDotPlusDollar_build {rest : List Char} (h1 : rest ≠ []) (h2 : '\n' ∉ rest) :
    matchDotPlusDollar rest = some rest := by
  have hall : ∀ c ∈ rest, (!(c == '\n')) = true :=
    fun c hc => bool_not_beq_nl (fun he => h2 (he ▸ hc))
  unfold matchDotPlusDollar
  rw [List.takeWhile_eq_self_iff.mpr hall, List.dropWhile_eq_nil_iff.mpr hall,
    if_neg (by simpa [List.isEmpty_iff] using h1), if_pos (Or.inl rfl)]

lemma matchDotPlusDollar_dest {s g : List Char} (h : matchDotPlusDollar s = some g) :
    g ≠ [] ∧ '\n' ∉ g ∧ (s = g ∨ s = g ++ ['\n']) := by
  unfold matchDotPlusDollar at h
  by_cases he : (s.takeWhile (fun c => !(c == '\n'))).isEmpty
  · rw [if_pos he] at h; cases h
  · rw [if_neg he] at h
    by_cases hrest : s.dropWhile (fun c => !(c == '\n')) = [] ∨
        s.dropWhile (fun c => !(c == '\n')) = ['\n']
    · rw [if_pos hrest] at h
      cases h
      refine ⟨by simpa [List.isEmpty_iff] using he, ?_, ?_⟩
      · intro hmem
        have := List.mem_takeWhile_imp hmem
        simp at this
      · rcases hrest with hr | hr
        · exact Or.inl (by
            conv_lhs => rw [← List.takeWhile_append_dropWhile
              (p := fun c => !(c == '\n')) (l := s)]
            rw [hr, List.append_nil])
        · exact Or.inr (by
            conv_lhs => rw [← List.takeWhile_append_dropWhile
              (p := fun c => !(c == '\n')) (l := s)]
            rw [hr])
    · rw [if_neg hrest] at h; cases h

lemma tid_all_not_bracket {tid : List Char} (htid : TidRun tid) :
    ∀ c ∈ tid, (isPySpace c || isDig c) = true := htid.2

lemma tidAndRest_build {tid : List Char} (rest : List Char) (htid : TidRun tid) :
    tidAndRest (tid ++ ']' :: rest) = matchDotPlusDollar rest := by
  unfold tidAndRest
  rw [takeWhile_all_append rest htid.2 (by decide),
    dropWhile_all_append rest htid.2 (by decide),
    if_neg (by simpa [List.isEmpty_iff] using htid.1), expectC_self]
  rfl

lemma tidAndRest_dest {r8 g8 : List Char} (h : tidAndRest r8 = some g8) :
    ∃ tid rest, TidRun tid ∧ r8 = tid ++ ']' :: rest ∧
      matchDotPlusDollar rest = some g8 := by
  unfold tidAndRest at h
  by_cases he : (r8.takeWhile (fun c => isPySpace c || isDig c)).isEmpty
  · rw [if_pos he] at h; cases h
  · rw [if_neg he] at h
    cases hec : expectC ']' (r8.dropWhile (fun c => isPySpace c || isDig c)) with
    | none => rw [hec] at h; cases h
    | some r10 =>
      rw [hec] at h
      simp only [Option.some_bind] at h
      refine ⟨r8.takeWhile (fun c => isPySpace c || isDig c), r10,
        ⟨by simpa [List.isEmpty_iff] using he,
          fun c hc => List.mem_takeWhile_imp
            (p := fun c => isPySpace c || isDig c) hc⟩, ?_, h⟩
      conv_lhs => rw [← List.takeWhile_append_dropWhile
        (p := fun c => isPySpace c || isDig c) (l := r8)]
      rw [expectC_dest hec]

/-- Running the source pattern on an assembled header line: everything up to
the second closing bracket matches, and the result is decided by the
`(.+)$` group on the trailing text. -/
lemma logStartMatch_assemble {y mo d h mi s ms tid : List Char} (rest : List Char)
    (hy : DigitRun y) (hmo : DigitRun mo) (hd : DigitRun d) (hh : DigitRun h)
    (hmi : DigitRun mi) (hs : DigitRun s) (hms : DigitRun ms) (htid : TidRun tid) :
    logStartMatch (headerAssemble y mo d h mi s ms tid rest) =
      (matchDotPlusDollar rest).map
        (fun g8 => ⟨y, mo, d, h, mi, s, ms, g8⟩ : List Char → HeaderGroups) := by
  unfold headerAssemble logStartMatch
  rw [expectC_self]
  simp only [Option.some_bind]
  rw [field_build _ hy (by decide)]
  simp only [Option.some_bind]
  rw [field_build _ hmo (by decide)]
  simp only [Option.some_bind]
  rw [field_build _ hd (by decide)]
  simp only [Option.some_bind]
  rw [field_build _ hh (by decide)]
  simp only [Option.some_bind]
  rw [field_build _ hmi (by decide)]
  simp only [Option.some_bind]
  rw [field_build _ hs (by decide)]
  simp only [Option.some_bind]
  rw [field_build _ hms (by decide)]
  simp only [Option.some_bind]
  rw [expectC_self]
  simp only [Option.some_bind]
  rw [tidAndRest_build _ htid]

lemma logStartMatch_dest {l : List Char} {g : HeaderGroups}
    (h : logStartMatch l = some g) :
    ∃ tid rest, DigitRun g.g1 ∧ DigitRun g.g2 ∧ DigitRun g.g3 ∧ DigitRun g.g4 ∧
      DigitRun g.g5 ∧ DigitRun g.g6 ∧ DigitRun g.g7 ∧ TidRun tid ∧
      matchDotPlusDollar rest = some g.g8 ∧
      l = headerAssemble g.g1 g.g2 g.g3 g.g4 g.g5 g.g6 g.g7 tid rest := by
  unfold logStartMatch at h
  simp only [Option.bind_eq_some, Option.map_eq_some'] at h
  obtain ⟨r0, h0, ⟨y, r1⟩, h1, ⟨mo, r2⟩, h2, ⟨d, r3⟩, h3, ⟨hh, r4⟩, h4,
    ⟨mi, r5⟩, h5, ⟨se, r6⟩, h6, ⟨ms, r7⟩, h7, r8, h8, g8, h9, hg⟩ := h
  dsimp only at h2 h3 h4 h5 h6 h7 h8
  obtain ⟨tid, rest, htid, hr8, hdollar⟩ := tidAndRest_dest h9
  obtain ⟨hdy, hey⟩ := field_dest h1
  obtain ⟨hdmo, hemo⟩ := field_dest h2
  obtain ⟨hdd, hed⟩ := field_dest h3
  obtain ⟨hdh, heh⟩ := field_dest h4
  obtain ⟨hdmi, hemi⟩ := field_dest h5
  obtain ⟨hdse, hese⟩ := field_dest h6
  obtain ⟨hdms, hems⟩ := field_dest h7
  subst hg
  refine ⟨tid, rest, hdy, hdmo, hdd, hdh, hdmi, hdse, hdms, htid, hdollar, ?_⟩
  rw [expectC_dest h0, hey, hemo, hed, heh, hemi, hese, hems, expectC_dest h8, hr8]
  rfl

/-! ## Soundness of the category / verbosity splits -/

lemma matchWsDotPlus_sound {after rem : List Char} (hnl : '\n' ∉ after)
    (h : matchWsDotPlus after = some rem) :
    ∃ ws, ws ≠ [] ∧ (∀ c ∈ ws, isPySpace c = true) ∧ after = ws ++ rem ∧
      rem ≠ [] := by
  unfold matchWsDotPlus at h
  by_cases hwe : (after.takeWhile isPySpace).isEmpty
  · rw [if_pos hwe] at h; cases h
  · rw [if_neg hwe] at h
    cases hdp : matchDotPlus (after.dropWhile isPySpace) with
    | some rem0 =>
      rw [hdp] at h
      cases h
      have htlnl : '\n' ∉ after.dropWhile isPySpace :=
        fun hm => hnl ((List.dropWhile_sublist (p := isPySpace)).subset hm)
      have htlall : ∀ c ∈ after.dropWhile isPySpace, (!(c == '\n')) = true :=
        fun c hc => bool_not_beq_nl (fun he => htlnl (he ▸ hc))
      unfold matchDotPlus at hdp
      rw [List.takeWhile_eq_self_iff.mpr htlall] at hdp
      by_cases htle : (after.dropWhile isPySpace).isEmpty
      · rw [if_pos htle] at hdp; cases hdp
      · rw [if_neg htle] at hdp
        cases hdp
        refine ⟨after.takeWhile isPySpace,
          by simpa [List.isEmpty_iff] using hwe,
          fun c hc => List.mem_takeWhile_imp (p := isPySpace) hc,
          (List.takeWhile_append_dropWhile (p := isPySpace) (l := after)).symm,
          by simpa [List.isEmpty_iff] using htle⟩
    | none =>
      rw [hdp] at h
      have htl0 : after.dropWhile isPySpace = [] := by
        cases htl : after.dropWhile isPySpace with
        | nil => rfl
        | cons a as =>
          have ha := dropWhile_head_false htl
          unfold matchDotPlus at hdp
          rw [htl] at hdp
          rw [List.takeWhile_cons] at hdp
          by_cases han : (!(a == '\n')) = true
          · simp [han] at hdp
          · have : a = '\n' := by simpa using han
            subst this
            simp [isPySpace] at ha
      have hws0 : after.takeWhile isPySpace = after := by
        conv_rhs => rw [← List.takeWhile_append_dropWhile (p := isPySpace) (l := after)]
        rw [htl0, List.append_nil]
      have hafterws : ∀ c ∈ after, isPySpace c = true := by
        intro c hc
        exact List.mem_takeWhile_imp (p := isPySpace) (hws0.symm ▸ hc)
      have hcore : ((after.takeWhile isPySpace).reverse.dropWhile
          (fun c => c == '\n')).reverse = after := by
        rw [hws0, dropWhile_all_false (fun c hc => by
          have hc' : c ∈ after := List.mem_reverse.mp hc
          have : ¬c = '\n' := fun he => hnl (he ▸ hc')
          simpa using this), List.reverse_reverse]
      rw [hcore] at h
      by_cases hlen : 2 ≤ after.length
      · rw [if_pos hlen] at h
        cases h
        have hne : after ≠ [] := by
          intro he
          rw [he] at hlen
          simp at hlen
        have hlast : after.getLastD ' ' = after.getLast hne := by
          rw [List.getLastD_eq_getLast?, List.getLast?_eq_getLast after hne]
          rfl
        refine ⟨after.dropLast, ?_, ?_, ?_, by simp⟩
        · have := List.length_dropLast after
          intro he
          rw [he] at this
          simp at this
          omega
        · exact fun c hc => hafterws c ((List.dropLast_sublist after).subset hc)
        · rw [hlast]
          exact (List.dropLast_append_getLast hne).symm
      · rw [if_neg hlen] at h; cases h

lemma split_log_category_sound {s cat rem : List Char} (hnl : '\n' ∉ s)
    (h : split_log_category s = some (cat, rem)) :
    cat ≠ [] ∧ (∀ c ∈ cat, ¬c = ':') ∧ rem ≠ [] ∧
      ∃ ws, ws ≠ [] ∧ (∀ c ∈ ws, isPySpace c = true) ∧
        s = cat ++ ':' :: (ws ++ rem) := by
  cases hdw : s.dropWhile (fun c => !(c == ':')) with
  | nil => simp [split_log_category, hdw] at h
  | cons hh after =>
    simp only [split_log_category, hdw] at h
    have hh' : hh = ':' := by
      have := dropWhile_head_false hdw
      simpa using this
    subst hh'
    by_cases hce : (s.takeWhile (fun c => !(c == ':'))).isEmpty
    · rw [if_pos hce] at h; cases h
    · rw [if_neg hce] at h
      cases hmw : matchWsDotPlus after with
      | none => rw [hmw] at h; cases h
      | some rem0 =>
        rw [hmw] at h
        cases h
        have hsplit : s = s.takeWhile (fun c => !(c == ':')) ++ ':' :: after := by
          conv_lhs => rw [← List.takeWhile_append_dropWhile
            (p := fun c => !(c == ':')) (l := s)]
          rw [hdw]
        have hnla : '\n' ∉ after := fun hm => hnl (hsplit ▸ by simp [hm])
        obtain ⟨ws, hws1, hws2, hws3, hrem⟩ := matchWsDotPlus_sound hnla hmw
        refine ⟨by simpa [List.isEmpty_iff] using hce, ?_, hrem,
          ws, hws1, hws2, by conv_lhs => rw [hsplit, hws3]⟩
        intro c hc
        have := List.mem_takeWhile_imp (p := fun c => !(c == ':')) hc
        simpa using this

lemma tryVerbosity_sound {kw s b : List Char} (hnl : '\n' ∉ s)
    (h : tryVerbosity kw s = some b) :
    b ≠ [] ∧ ∃ ws, ws ≠ [] ∧ (∀ c ∈ ws, isPySpace c = true) ∧
      s = kw ++ ':' :: (ws ++ b) := by
  unfold tryVerbosity at h
  by_cases hp : (kw ++ [':']).isPrefixOf s = true
  · rw [if_pos hp] at h
    obtain ⟨t, rfl⟩ := isPrefOf_dest hp
    have hlen : kw.length + 1 = (kw ++ [':']).length := by simp
    rw [hlen, List.drop_left] at h
    have hnlt : '\n' ∉ t := fun hm => hnl (by simp [hm])
    obtain ⟨ws, hws1, hws2, hws3, hb⟩ := matchWsDotPlus_sound hnlt h
    exact ⟨hb, ws, hws1, hws2, by rw [hws3]; simp⟩
  · rw [if_neg hp] at h; cases h

lemma split_log_verbosity_sound {s : List Char} {v : Verbosity} {b : List Char}
    (hnl : '\n' ∉ s) (h : split_log_verbosity s = some (v, b)) :
    v ≠ .Log ∧ b ≠ [] ∧ ∃ ws, ws ≠ [] ∧ (∀ c ∈ ws, isPySpace c = true) ∧
      s = verbKw v ++ ':' :: (ws ++ b) := by
  unfold split_log_verbosity at h
  cases h1 : tryVerbosity "Warning".data s with
  | some b0 =>
    rw [h1] at h
    cases h
    obtain ⟨hb, hws⟩ := tryVerbosity_sound hnl h1
    exact ⟨(by intro he; cases he), hb, hws⟩
  | none =>
    rw [h1] at h
    cases h2 : tryVerbosity "Error".data s with
    | some b0 =>
      rw [h2] at h
      cases h
      obtain ⟨hb, hws⟩ := tryVerbosity_sound hnl h2
      exact ⟨(by intro he; cases he), hb, hws⟩
    | none =>
      rw [h2] at h
      cases h3 : tryVerbosity "Display".data s with
      | some b0 =>
        rw [h3] at h
        cases h
        obtain ⟨hb, hws⟩ := tryVerbosity_sound hnl h3
        exact ⟨(by intro he; cases he), hb, hws⟩
      | none => rw [h3] at h; cases h

/-! ## Lemmas about `parse_log_start_line`, `accumulate` and `read` -/

lemma logStartMatch_g8 {l : List Char} {g : HeaderGroups}
    (h : logStartMatch l = some g) : g.g8 ≠ [] ∧ '\n' ∉ g.g8 := by
  obtain ⟨tid, rest, _, _, _, _, _, _, _, _, hdollar, _⟩ := logStartMatch_dest h
  obtain ⟨h1, h2, _⟩ := matchDotPlusDollar_dest hdollar
  exact ⟨h1, h2⟩

lemma mkDatetime_dest {y mo d h mi s us : Nat} {tz : Int} {dt : Datetime}
    (hd : mkDatetime y mo d h mi s us tz = some dt) : dt.tz = tz := by
  unfold mkDatetime at hd
  split at hd
  · cases hd; rfl
  · cases hd

lemma parse_ok_invariants {tz : Int} {l : List Char} {lg : Log}
    (h : parse_log_start_line tz l = .ok (some lg)) :
    lg.log_body <:+ lg.log ∧ lg.log ≠ [] ∧ lg.date.tz = tz := by
  unfold parse_log_start_line at h
  cases hm : logStartMatch l with
  | none => rw [hm] at h; cases h
  | some g =>
    rw [hm] at h
    dsimp only at h
    cases hdt : mkDatetime (digitsToNat g.g1) (digitsToNat g.g2) (digitsToNat g.g3)
        (digitsToNat g.g4) (digitsToNat g.g5) (digitsToNat g.g6)
        (digitsToNat g.g7 * 1000) tz with
    | none => rw [hdt] at h; cases h
    | some time =>
      rw [hdt] at h
      dsimp only at h
      obtain ⟨hg8ne, hg8nl⟩ := logStartMatch_g8 hm
      cases hsc : split_log_category g.g8 with
      | none => rw [hsc] at h; cases h
      | some p =>
        obtain ⟨cat, rem⟩ := p
        rw [hsc] at h
        dsimp only at h
        obtain ⟨hcne, hcnc, hremne, ws, hws1, hws2, hdecomp⟩ :=
          split_log_category_sound hg8nl hsc
        have hremnl : '\n' ∉ rem := fun hm' => hg8nl (by rw [hdecomp]; simp [hm'])
        cases hsv : split_log_verbosity rem with
        | some q =>
          obtain ⟨v, body⟩ := q
          rw [hsv] at h
          cases h
          obtain ⟨hvne, hbne, ws2, hws21, hws22, hdecomp2⟩ :=
            split_log_verbosity_sound hremnl hsv
          refine ⟨?_, hg8ne, mkDatetime_dest hdt⟩
          show body <:+ g.g8
          rw [hdecomp, hdecomp2]
          exact ⟨cat ++ ':' :: (ws ++ (verbKw v ++ ':' :: ws2)), by simp⟩
        | none =>
          rw [hsv] at h
          cases h
          refine ⟨?_, hg8ne, mkDatetime_dest hdt⟩
          show rem <:+ g.g8
          rw [hdecomp]
          exact ⟨cat ++ ':' :: ws, by simp⟩

lemma parse_no_error {tz : Int} {l : List Char} (hls : is_logstart l = true)
    (hok : headerFieldsOk tz l = true) :
    ∃ r, parse_log_start_line tz l = .ok r := by
  unfold is_logstart at hls
  cases hm : logStartMatch l with
  | none => rw [hm] at hls; cases hls
  | some g =>
    unfold headerFieldsOk at hok
    rw [hm] at hok
    dsimp only at hok
    unfold parse_log_start_line
    rw [hm]
    dsimp only
    cases hdt : mkDatetime (digitsToNat g.g1) (digitsToNat g.g2) (digitsToNat g.g3)
        (digitsToNat g.g4) (digitsToNat g.g5) (digitsToNat g.g6)
        (digitsToNat g.g7 * 1000) tz with
    | none => rw [hdt] at hok; cases hok
    | some time =>
      dsimp only
      cases hsc : split_log_category g.g8 with
      | none => exact ⟨none, rfl⟩
      | some p =>
        obtain ⟨cat, rem⟩ := p
        dsimp only
        cases hsv : split_log_verbosity rem with
        | none => exact ⟨_, rfl⟩
        | some q => obtain ⟨v, body⟩ := q; exact ⟨_, rfl⟩

lemma accumulate_skip {lg : Log} {l : List Char} (ls : List (List Char))
    (hls : is_logstart l = false) :
    accumulate lg (l :: ls) = accumulate (foldLine lg l) ls := by
  simp [accumulate, hls]

lemma accumulate_dest (lg : Log) (ls : List (List Char)) :
    ∃ pre, ls = pre ++ (accumulate lg ls).2 ∧
      ((accumulate lg ls).2 = [] ∨
        is_logstart ((accumulate lg ls).2.headD []) = true) := by
  induction ls generalizing lg with
  | nil => exact ⟨[], by simp [accumulate]⟩
  | cons l ls ih =>
    by_cases hls : is_logstart l = true
    · exact ⟨[], by simp [accumulate, hls]⟩
    · obtain ⟨pre, hpre, hrest⟩ := ih (foldLine lg l)
      rw [accumulate_skip ls (by simpa using hls)]
      exact ⟨l :: pre, by rw [List.cons_append, ← hpre], hrest⟩

lemma accumulate_inv (P : Log → Prop) (hP : ∀ lg l, P lg → P (foldLine lg l))
    {lg : Log} (ls : List (List Char)) (h : P lg) : P (accumulate lg ls).1 := by
  induction ls generalizing lg with
  | nil => simpa [accumulate] using h
  | cons l ls ih =>
    by_cases hls : is_logstart l = true
    · simpa [accumulate, hls] using h
    · rw [accumulate_skip ls (by simpa using hls)]
      exact ih (hP _ _ h)

lemma read_skip_line {tz : Int} {l : List Char} (ls : List (List Char))
    (hls : is_logstart l = false) : read tz (l :: ls) = read tz ls := by
  simp [read, hls]

lemma read_dest {tz : Int} {lines : List (List Char)} {r : Option Log}
    {rest : List (List Char)} (h : read tz lines = .ok (r, rest)) :
    (∃ pre, lines = pre ++ rest) ∧
      (rest = [] ∨ (is_logstart (rest.headD []) = true ∧ r.isSome = true)) := by
  induction lines with
  | nil =>
    rw [read] at h
    cases h
    exact ⟨⟨[], rfl⟩, Or.inl rfl⟩
  | cons l ls ih =>
    by_cases hls : is_logstart l = true
    · rw [read, if_pos hls] at h
      cases hp : parse_log_start_line tz l with
      | error e => rw [hp] at h; cases h
      | ok o =>
        rw [hp] at h
        cases o with
        | none =>
          obtain ⟨⟨pre, hpre⟩, h2⟩ := ih h
          exact ⟨⟨l :: pre, by rw [List.cons_append, ← hpre]⟩, h2⟩
        | some lg =>
          cases h
          obtain ⟨pre, hpre, hrest⟩ := accumulate_dest lg ls
          refine ⟨⟨l :: pre, by rw [List.cons_append, ← hpre]⟩, ?_⟩
          rcases hrest with h1 | h1
          · exact Or.inl h1
          · exact Or.inr ⟨h1, rfl⟩
    · obtain ⟨⟨pre, hpre⟩, h2⟩ :=
        ih (by rw [read_skip_line ls (by simpa using hls)] at h; exact h)
      exact ⟨⟨l :: pre, by rw [List.cons_append, ← hpre]⟩, h2⟩

lemma read_ok_some_inv {tz : Int} {lines : List (List Char)} {lg : Log}
    {rest : List (List Char)} (h : read tz lines = .ok (some lg, rest)) :
    lg.log_body <:+ lg.log ∧ lg.log ≠ [] ∧ lg.date.tz = tz := by
  induction lines with
  | nil => rw [read] at h; cases h
  | cons l ls ih =>
    by_cases hls : is_logstart l = true
    · rw [read, if_pos hls] at h
      cases hp : parse_log_start_line tz l with
      | error e => rw [hp] at h; cases h
      | ok o =>
        rw [hp] at h
        cases o with
        | none => exact ih h
        | some lg0 =>
          cases h
          exact accumulate_inv
            (fun x => x.log_body <:+ x.log ∧ x.log ≠ [] ∧ x.date.tz = tz)
            (fun a b hab => ⟨suffix_append_both _ hab.1, by simp [foldLine],
              hab.2.2⟩) ls (parse_ok_invariants hp)
    · exact ih (by rw [read_skip_line ls (by simpa using hls)] at h; exact h)

lemma read_total {tz : Int} (lines : List (List Char))
    (h : lines.all (headerFieldsOk tz) = true) :
    ∃ r, read tz lines = .ok r := by
  induction lines with
  | nil => exact ⟨(none, []), rfl⟩
  | cons l ls ih =>
    rw [List.all_cons, Bool.and_eq_true] at h
    by_cases hls : is_logstart l = true
    · obtain ⟨o, ho⟩ := parse_no_error hls h.1
      rw [read, if_pos hls, ho]
      cases o with
      | none => exact ih h.2
      | some lg => exact ⟨_, rfl⟩
    · rw [read_skip_line ls (by simpa using hls)]
      exact ih h.2

/-! ## Lemmas about the timezone resolver -/

lemma isDig_not_space {c : Char} (hc : isDig c = true) : isPySpace c = false := by
  by_contra hns
  rw [Bool.not_eq_false] at hns
  simp only [isPySpace, Bool.or_eq_true, beq_iff_eq] at hns
  rcases hns with ((((h | h) | h) | h) | h) | h <;> (subst h; revert hc; decide)

lemma isDig_ne {c d : Char} (hc : isDig c = true) (hd : isDig d = false) :
    ¬c = d := fun he => by rw [he, hd] at hc; cases hc

lemma tzMarker_not_prefixOf {c : Char} (r : List Char) (hc : ¬c = 'R') :
    tzMarker.isPrefixOf (c :: r) = false := by
  have h1 : tzMarker = 'R' :: "aw Offset:".data := rfl
  rw [h1]
  simp only [List.isPrefixOf, Bool.and_eq_false_iff]
  left
  simpa [beq_iff_eq] using fun he => hc he.symm

lemma tzFind_none {l : List Char} (h : ∀ c ∈ l, ¬c = 'R') : tzFind l = none := by
  induction l with
  | nil => rfl
  | cons c r ih =>
    have hig := tzMarker_not_prefixOf r (h c (by simp))
    have ihr := ih (fun x hx => h x (by simp [hx]))
    simp [tzFind, hig, ihr]

lemma tzFind_skip {c : Char} (r : List Char) (h1 : ¬c = 'R') (h2 : ¬c = '\n') :
    tzFind (c :: r) = tzFind r := by
  have hig := tzMarker_not_prefixOf r h1
  have hcn : (c == '\n') = false := by simpa [beq_iff_eq] using h2
  cases htf : tzFind r with
  | some g => simp [tzFind, hcn, hig, htf]
  | none => simp [tzFind, hcn, hig, htf]

lemma tzFind_append_skip {xs : List Char} (t : List Char)
    (h : ∀ c ∈ xs, ¬c = 'R' ∧ ¬c = '\n') : tzFind (xs ++ t) = tzFind t := by
  induction xs with
  | nil => rfl
  | cons a as ih =>
    rw [List.cons_append, tzFind_skip _ (h a (by simp)).1 (h a (by simp)).2]
    exact ih (fun c hc => h c (by simp [hc]))

lemma tzFind_cons_eq (c : Char) (r : List Char) :
    tzFind (c :: r) =
      match (if c == '\n' then none else tzFind r) with
      | some g => some g
      | none =>
        if tzMarker.isPrefixOf (c :: r) then
          tzAfterMarker ((c :: r).drop tzMarker.length)
        else none := rfl

lemma tzFind_hit (t : List Char) (h : ∀ c ∈ t, ¬c = 'R') :
    tzFind (tzMarker ++ t) = tzAfterMarker t := by
  have hrest : tzFind ("aw Offset:".data ++ t) = none := by
    apply tzFind_none
    intro c hc
    rcases List.mem_append.mp hc with h1 | h1
    · intro he
      subst he
      revert h1
      decide
    · exact h c h1
  have hmarker : tzMarker ++ t = 'R' :: ("aw Offset:".data ++ t) := rfl
  have hpre : tzMarker.isPrefixOf ('R' :: ("aw Offset:".data ++ t)) = true := by
    rw [← hmarker]
    exact isPrefOf_self_append tzMarker t
  have hdrop : ('R' :: ("aw Offset:".data ++ t)).drop tzMarker.length = t := by
    rw [← hmarker]
    exact List.drop_left tzMarker t
  rw [hmarker, tzFind_cons_eq, if_neg (by decide), hrest]
  dsimp only
  rw [if_pos hpre, hdrop]

lemma tzAfterMarker_std {sign : Char} {hs ms : List Char}
    (hsign1 : ¬sign = ':') (hsign2 : isPySpace sign = false)
    (hhsd : ∀ c ∈ hs, isDig c = true)
    (hms : ms ≠ []) (hmsd : ∀ c ∈ ms, isDig c = true) :
    tzAfterMarker (' ' :: sign :: (hs ++ ':' :: ms)) =
      some (sign :: hs, ms) := by
  have hshape : ' ' :: sign :: (hs ++ ':' :: ms) =
      (' ' :: sign :: hs) ++ ':' :: ms := by simp
  have hall : ∀ c ∈ ' ' :: sign :: hs, (!(c == ':')) = true := by
    intro c hc
    rcases List.mem_cons.mp hc with h1 | h1
    · subst h1; decide
    rcases List.mem_cons.mp h1 with h2 | h2
    · subst h2; simpa [beq_iff_eq] using hsign1
    · simpa [beq_iff_eq] using isDig_ne (hhsd c h2) (by decide)
  unfold tzAfterMarker
  rw [hshape, takeWhile_all_append _ hall (by decide),
    dropWhile_all_append _ hall (by decide)]
  dsimp only
  rw [if_neg (by simp), List.takeWhile_eq_self_iff.mpr hmsd,
    if_neg (by simpa [List.isEmpty_iff] using hms)]
  have hdws : (' ' :: sign :: hs).dropWhile isPySpace = sign :: hs := by
    rw [List.dropWhile_cons, if_pos (by decide), List.dropWhile_cons,
      if_neg (by simp [hsign2])]
  rw [hdws]

lemma extract_mkTzLine {neg : Bool} {hs ms : List Char}
    (hhsd : ∀ c ∈ hs, isDig c = true)
    (hms : ms ≠ []) (hmsd : ∀ c ∈ ms, isDig c = true) :
    extract_time_zone_match (mkTzLine neg hs ms) =
      some ((if neg then '-' else '+') :: hs, ms) := by
  obtain ⟨sign, hsgn, hsigneq⟩ :
      ∃ sign : Char, (sign = '+' ∨ sign = '-') ∧ (if neg then '-' else '+') = sign := by
    cases neg
    · exact ⟨'+', Or.inl rfl, rfl⟩
    · exact ⟨'-', Or.inr rfl, rfl⟩
  rw [mkTzLine, hsigneq]
  unfold extract_time_zone_match
  dsimp only
  rw [if_neg (by decide)]
  rw [tzFind_append_skip _ (by decide :
    ∀ c ∈ " TimeZone Detection ".data, ¬c = 'R' ∧ ¬c = '\n')]
  rw [tzFind_hit _ ?memb]
  case memb =>
    intro c hc
    rcases List.mem_cons.mp hc with h1 | h1
    · subst h1; decide
    rcases List.mem_cons.mp h1 with h2 | h2
    · subst h2
      rcases hsgn with h | h <;> (subst h; decide)
    rcases List.mem_append.mp h2 with h3 | h3
    · exact isDig_ne (hhsd c h3) (by decide)
    rcases List.mem_cons.mp h3 with h4 | h4
    · subst h4; decide
    · exact isDig_ne (hmsd c h4) (by decide)
  exact tzAfterMarker_std
    (by rcases hsgn with h | h <;> (subst h; decide))
    (by rcases hsgn with h | h <;> (subst h; decide))
    hhsd hms hmsd

/-! ## `int()` lemmas -/

lemma pyIntRest_cons (c : Char) (r : List Char) :
    pyIntRest (c :: r) =
      if c = '_' then
        (match r with
         | [] => false
         | c' :: r' => isDig c' && pyIntRest r')
      else isDig c && pyIntRest r := by
  rw [pyIntRest.eq_def]

lemma pyIntOk_cons (c : Char) (r : List Char) :
    pyIntOk (c :: r) = (isDig c && pyIntRest r) := rfl

lemma pyIntRest_digits {l : List Char} (h : ∀ c ∈ l, isDig c = true) :
    pyIntRest l = true := by
  induction l with
  | nil => rfl
  | cons c r ih =>
    have hcu : ¬c = '_' := isDig_ne (h c (by simp)) (by decide)
    rw [pyIntRest_cons, if_neg hcu, h c (by simp), Bool.true_and]
    exact ih (fun x hx => h x (by simp [hx]))

lemma pyIntDigits_digits {l : List Char} (hne : l ≠ [])
    (h : ∀ c ∈ l, isDig c = true) : pyIntDigits l = some (digitsToNat l) := by
  have hok : pyIntOk l = true := by
    cases l with
    | nil => exact absurd rfl hne
    | cons c r =>
      rw [pyIntOk_cons, h c (by simp), Bool.true_and]
      exact pyIntRest_digits (fun x hx => h x (by simp [hx]))
  have hfil : l.filter (fun c => !(c == '_')) = l := by
    apply List.filter_eq_self.mpr
    intro c hc
    simpa [beq_iff_eq] using isDig_ne (h c hc) (by decide)
  rw [pyIntDigits, if_pos hok, hfil]

lemma stripWs_eq_self {l : List Char} (h : ∀ c ∈ l, isPySpace c = false) :
    stripWs l = l := by
  unfold stripWs
  rw [dropWhile_all_false h,
    dropWhile_all_false (fun c hc => h c (List.mem_reverse.mp hc)),
    List.reverse_reverse]

lemma pyInt_signed {sign : Char} {hs : List Char}
    (hsgn : sign = '+' ∨ sign = '-') (hhs : hs ≠ [])
    (hhsd : ∀ c ∈ hs, isDig c = true) :
    pyInt (sign :: hs) =
      some (if sign = '-' then -(digitsToNat hs : Int)
            else (digitsToNat hs : Int)) := by
  have hstrip : stripWs (sign :: hs) = sign :: hs := by
    apply stripWs_eq_self
    intro c hc
    rcases List.mem_cons.mp hc with h1 | h1
    · subst h1
      rcases hsgn with h | h <;> (subst h; decide)
    · exact isDig_not_space (hhsd c h1)
  unfold pyInt
  rw [hstrip]
  dsimp only
  rcases hsgn with h1 | h1 <;> subst h1
  · rw [if_pos rfl, pyIntDigits_digits hhs hhsd]
    rfl
  · rw [if_neg (by decide), if_pos rfl, pyIntDigits_digits hhs hhsd]
    rfl

lemma pyInt_digits {ms : List Char} (hms : ms ≠ [])
    (hmsd : ∀ c ∈ ms, isDig c = true) :
    pyInt ms = some (digitsToNat ms : Int) := by
  have hstrip : stripWs ms = ms :=
    stripWs_eq_self (fun c hc => isDig_not_space (hmsd c hc))
  unfold pyInt
  rw [hstrip]
  cases ms with
  | nil => exact absurd rfl hms
  | cons c r =>
    dsimp only
    have hcd := hmsd c (by simp)
    rw [if_neg (isDig_ne hcd (by decide)), if_neg (isDig_ne hcd (by decide)),
      pyIntDigits_digits (by simp) hmsd]
    rfl

lemma initParser_cons (l : List Char) (ls : List (List Char)) :
    initParser (l :: ls) =
      if containsSub tzDetectMarker l then
        (match resolve_tz_line l with
         | .ok ofs => .ok (ofs, ls)
         | .error e => .error e)
      else initParser ls := by
  rw [initParser.eq_def]

lemma initParser_nil : initParser [] = .error .initializationError := by
  rw [initParser.eq_def]

lemma resolve_mkTzLine {neg : Bool} {hs ms : List Char}
    (hhs : hs ≠ []) (hhsd : ∀ c ∈ hs, isDig c = true)
    (hms : ms ≠ []) (hmsd : ∀ c ∈ ms, isDig c = true) :
    resolve_tz_line (mkTzLine neg hs ms) =
      if -1440 < tzOfsOf neg hs ms ∧ tzOfsOf neg hs ms < 1440
      then .ok (tzOfsOf neg hs ms) else .error .valueError := by
  unfold resolve_tz_line
  rw [extract_mkTzLine hhsd hms hmsd]
  dsimp only
  rw [pyInt_signed (by cases neg <;> simp) hhs hhsd, pyInt_digits hms hmsd]
  dsimp only
  have hsign : (if (if neg then '-' else '+') = '-'
        then -(digitsToNat hs : Int) else (digitsToNat hs : Int)) =
      (if neg then -(digitsToNat hs : Int) else (digitsToNat hs : Int)) := by
    cases neg <;> simp
  rw [hsign, tzOfsOf]

lemma containsSub_mkTzLine (neg : Bool) (hs ms : List Char) :
    containsSub tzDetectMarker (mkTzLine neg hs ms) = true := by
  have hshape : mkTzLine neg hs ms = ('x' :: " TimeZone Detection ".data) ++
      (tzMarker ++ (' ' :: (if neg then '-' else '+') :: (hs ++ ':' :: ms))) := by
    rw [mkTzLine]
    rfl
  rw [hshape]
  exact containsSub_append_left _ (by decide)

lemma initParser_mkTzLine {neg : Bool} {hs ms : List Char}
    (hhs : hs ≠ []) (hhsd : ∀ c ∈ hs, isDig c = true)
    (hms : ms ≠ []) (hmsd : ∀ c ∈ ms, isDig c = true)
    (hlo : -1440 < tzOfsOf neg hs ms) (hhi : tzOfsOf neg hs ms < 1440) :
    initParser [mkTzLine neg hs ms] = .ok (tzOfsOf neg hs ms, []) := by
  rw [initParser_cons, if_pos (containsSub_mkTzLine neg hs ms),
    resolve_mkTzLine hhs hhsd hms hmsd, if_pos ⟨hlo, hhi⟩]

lemma initParser_noMarker {lines : List (List Char)}
    (h : lines.all (fun l => !(containsSub tzDetectMarker l)) = true) :
    initParser lines = .error .initializationError := by
  induction lines with
  | nil => exact initParser_nil
  | cons l ls ih =>
    rw [List.all_cons, Bool.and_eq_true] at h
    rw [initParser_cons, if_neg (by simpa using h.1)]
    exact ih h.2

/-! ## Claim theorems -/

/-- C1, counterexample: a header-shaped line whose month field is `13` makes
`read` raise `ValueError` from the `datetime` constructor, so `read` does not
always return a record or the sentinel. -/
theorem C1_counterexample :
    is_logstart "[2020.13.01-00.00.00:000][  1]A: b".data = true ∧
    read 540 ["[2020.13.01-00.00.00:000][  1]A: b".data] =
      .error PyError.valueError := by decide

/-- C1 (amended): provided every header-shaped line of the stream carries
in-range date-time fields, `read` never raises: it returns a record or the
end-of-stream sentinel; and once a line has matched the header shape and been
decoded, the assembled record together with the folded continuation lines is
always completed and returned. -/
theorem C1_amended (tz : Int) :
    (∀ lines : List (List Char), lines.all (headerFieldsOk tz) = true →
      ∃ r, read tz lines = .ok r) ∧
    (∀ (l : List Char) (ls : List (List Char)) (lg : Log),
      is_logstart l = true → parse_log_start_line tz l = .ok (some lg) →
      read tz (l :: ls) = .ok (some (accumulate lg ls).1, (accumulate lg ls).2)) := by
  refine ⟨fun lines h => read_total lines h, fun l ls lg h1 h2 => ?_⟩
  rw [read, if_pos h1, h2]

theorem C1_amended_witness :
    ((["[2020.12.14-13.46.03:809][  1]LogTemp: hi".data,
       "continuation".data].all (headerFieldsOk 540) = true) ∧
      ∃ r, read 540 ["[2020.12.14-13.46.03:809][  1]LogTemp: hi".data,
        "continuation".data] = .ok r) ∧
    (is_logstart "[2020.12.14-13.46.03:809][  1]LogTemp: hi".data = true ∧
      read 540 ["[2020.12.14-13.46.03:809][  1]LogTemp: hi".data,
          "continuation".data] =
        .ok (some (accumulate
            ⟨⟨2020, 12, 14, 13, 46, 3, 809000, 540⟩, Verbosity.Log,
              "LogTemp".data, "LogTemp: hi".data, "hi".data⟩
            ["continuation".data]).1,
          (accumulate
            ⟨⟨2020, 12, 14, 13, 46, 3, 809000, 540⟩, Verbosity.Log,
              "LogTemp".data, "LogTemp: hi".data, "hi".data⟩
            ["continuation".data]).2)) :=
  ⟨⟨by decide, (C1_amended 540).1 _ (by decide)⟩,
   ⟨by decide, (C1_amended 540).2 _ _ _ (by decide) (by decide)⟩⟩

/-- C2, counterexample: a stream whose only line contains a well-formed
`Raw Offset: +9:00,` announcement (the timezone regex itself accepts the line)
but no `TimeZone Detection` text still fails construction, so construction
does not succeed "exactly when" a `Raw Offset:` announcement is present. -/
theorem C2_counterexample :
    extract_time_zone_match "ICU Raw Offset: +9:00, Platform Override".data =
      some ("+9".data, "00".data) ∧
    containsSub "Raw Offset:".data
      "ICU Raw Offset: +9:00, Platform Override".data = true ∧
    initParser ["ICU Raw Offset: +9:00, Platform Override".data] =
      .error PyError.initializationError := by decide

/-- C2 (amended): the constructor scan is gated on the substring
`TimeZone Detection`, not on `Raw Offset:`: when no line of the stream
contains `TimeZone Detection`, construction fails with `InitializationError`
and no record is ever produced (there is no parser state to read from). -/
theorem C2_amended (lines : List (List Char))
    (h : lines.all (fun l => !(containsSub tzDetectMarker l)) = true) :
    initParser lines = .error PyError.initializationError :=
  initParser_noMarker h

theorem C2_amended_witness :
    (["ICU Raw Offset: +9:00, Platform Override".data].all
      (fun l => !(containsSub tzDetectMarker l)) = true) ∧
    initParser ["ICU Raw Offset: +9:00, Platform Override".data] =
      .error PyError.initializationError :=
  ⟨by decide, C2_amended _ (by decide)⟩

/-- C3, counterexample: the line `[1.1.1-1.1.1:1][1]x` fails the fixed-width
shape claimed by the spec (one-digit year, etc.) yet the source pattern
accepts it as a header. -/
theorem C3_counterexample :
    specHeaderShape "[1.1.1-1.1.1:1][1]x".data = false ∧
    is_logstart "[1.1.1-1.1.1:1][1]x".data = true := by decide

/-- C3 (amended): a line is treated as a record header exactly when it has
the relaxed shape actually enforced by the pattern: seven numeric fields of
one or more digits each (no fixed widths), a nonempty second bracket of
digits and/or whitespace, and a nonempty trailing text. -/
theorem C3_amended (l : List Char) (hnl : '\n' ∉ l) :
    is_logstart l = true ↔ HeaderShapeRelaxed l := by
  constructor
  · intro h
    unfold is_logstart at h
    cases hm : logStartMatch l with
    | none => rw [hm] at h; cases h
    | some g =>
      obtain ⟨tid, rest, h1, h2, h3, h4, h5, h6, h7, htid, hdollar, heq⟩ :=
        logStartMatch_dest hm
      obtain ⟨hg8ne, hg8nl, hor⟩ := matchDotPlusDollar_dest hdollar
      refine ⟨g.g1, g.g2, g.g3, g.g4, g.g5, g.g6, g.g7, tid, rest,
        h1, h2, h3, h4, h5, h6, h7, htid, ?_, heq⟩
      rcases hor with hr | hr
      · rw [hr]; exact hg8ne
      · rw [hr]; simp
  · rintro ⟨y, mo, d, h, mi, s, ms, tid, rest, hy, hmo, hd, hh, hmi, hs, hms,
      htid, hrest, rfl⟩
    have hrestnl : '\n' ∉ rest := fun hm => hnl (by simp [headerAssemble, hm])
    unfold is_logstart
    rw [logStartMatch_assemble rest hy hmo hd hh hmi hs hms htid,
      matchDotPlusDollar_build hrest hrestnl]
    rfl

theorem C3_amended_witness :
    ('\n' ∉ "[1.1.1-1.1.1:1][ 1]x".data) ∧
    (is_logstart "[1.1.1-1.1.1:1][ 1]x".data = true ↔
      HeaderShapeRelaxed "[1.1.1-1.1.1:1][ 1]x".data) :=
  ⟨by decide, C3_amended _ (by decide)⟩

/-- C4, counterexample: the announcement `-9:30` resolves to the offset
`-9*60 + 30 = -510` minutes, not the sign-combined `-(9*60) - 30 = -570`
claimed by the spec. -/
theorem C4_counterexample :
    initParser ["x TimeZone Detection Raw Offset: -9:30,".data] =
      .ok (-510, []) ∧
    (-510 : Int) ≠ -(9 * 60) - 30 := by decide

/-- C4 (amended): for every announcement `<sign><hours>:<minutes>`, the
resolved offset is the signed hours times sixty plus the minutes taken as a
non-negative value — the minutes are never combined with the hour's sign. -/
theorem C4_amended (neg : Bool) (hs ms : List Char) (hhs : hs ≠ [])
    (hhsd : hs.all isDig = true) (hms : ms ≠ []) (hmsd : ms.all isDig = true)
    (hlo : -1440 < tzOfsOf neg hs ms) (hhi : tzOfsOf neg hs ms < 1440) :
    initParser [mkTzLine neg hs ms] = .ok (tzOfsOf neg hs ms, []) :=
  initParser_mkTzLine hhs (fun c hc => by
      have := List.all_eq_true.mp hhsd c hc
      simpa using this)
    hms (fun c hc => by
      have := List.all_eq_true.mp hmsd c hc
      simpa using this)
    hlo hhi

theorem C4_amended_witness :
    ("9".data ≠ [] ∧ "9".data.all isDig = true ∧ "30".data ≠ [] ∧
      "30".data.all isDig = true ∧ -1440 < tzOfsOf true "9".data "30".data ∧
      tzOfsOf true "9".data "30".data < 1440) ∧
    initParser [mkTzLine true "9".data "30".data] =
      .ok (tzOfsOf true "9".data "30".data, []) :=
  ⟨⟨by decide, by decide, by decide, by decide, by decide, by decide⟩,
   C4_amended true "9".data "30".data (by decide) (by decide) (by decide)
     (by decide) (by decide) (by decide)⟩

/-- C5, counterexample: the trailing text `a:b: c` contains the
separator `": "` (so the spec's rule decodes category `a:b`, remainder `c`),
but the source pattern anchors the category at the first colon, which must be
followed by whitespace, and decoding fails. -/
theorem C5_counterexample :
    specFindSep "a:b: c".data = some ("a:b".data, "c".data) ∧
    split_log_category "a:b: c".data = none := by decide

/-- C5 (amended): whenever category decoding succeeds the input splits at its
first colon: the category is the nonempty colon-free text before that colon,
the colon is followed by a nonempty whitespace run, and the remainder is the
nonempty text after that run; a category can therefore never contain a colon,
and the separator is colon-plus-whitespace, not the exact text `": "`. -/
theorem C5_amended (s cat rem : List Char) (hnl : '\n' ∉ s)
    (h : split_log_category s = some (cat, rem)) :
    cat ≠ [] ∧ (∀ c ∈ cat, ¬c = ':') ∧ rem ≠ [] ∧
      ∃ ws, ws ≠ [] ∧ (∀ c ∈ ws, isPySpace c = true) ∧
        s = cat ++ ':' :: (ws ++ rem) :=
  split_log_category_sound hnl h

theorem C5_amended_witness :
    ('\n' ∉ "A: b".data) ∧ split_log_category "A: b".data =
      some ("A".data, "b".data) ∧
    ("A".data ≠ [] ∧ (∀ c ∈ "A".data, ¬c = ':') ∧ "b".data ≠ [] ∧
      ∃ ws, ws ≠ [] ∧ (∀ c ∈ ws, isPySpace c = true) ∧
        "A: b".data = "A".data ++ ':' :: (ws ++ "b".data)) :=
  ⟨by decide, by decide, C5_amended _ _ _ (by decide) (by decide)⟩

/-- C6, counterexample: the header-shaped line
`[2020.01.01-00.00.00:000][ 1]A:\tB` has no `": "` anywhere in its trailing
text, yet it is not skipped: `read` returns it as a record (the tab counts
as the whitespace of the category separator). -/
theorem C6_counterexample :
    containsSub ": ".data "A:\tB".data = false ∧
    is_logstart "[2020.01.01-00.00.00:000][ 1]A:\tB".data = true ∧
    read 0 ["[2020.01.01-00.00.00:000][ 1]A:\tB".data] =
      .ok (some ⟨⟨2020, 1, 1, 0, 0, 0, 0, 0⟩, Verbosity.Log, "A".data,
        "A:\tB".data, "B".data⟩, []) := by decide

/-- C6 (amended): a header-shaped line whose trailing text fails the category
decode (no colon followed by whitespace and a nonempty remainder) is silently
skipped: the call continues scanning the rest of the stream exactly as if the
line were absent, so it yields no record, raises nothing because of it, and
all subsequent valid headers are still found in order. -/
theorem C6_amended (tz : Int) (l : List Char) (ls : List (List Char))
    (h1 : is_logstart l = true) (h2 : parse_log_start_line tz l = .ok none) :
    read tz (l :: ls) = read tz ls := by
  rw [read, if_pos h1, h2]

theorem C6_amended_witness :
    (is_logstart "[2020.01.01-00.00.00:000][ 1]NoSeparator".data = true ∧
      parse_log_start_line 0 "[2020.01.01-00.00.00:000][ 1]NoSeparator".data =
        .ok none) ∧
    read 0 ["[2020.01.01-00.00.00:000][ 1]NoSeparator".data,
        "[2020.01.01-00.00.01:000][ 1]Cat: ok".data] =
      read 0 ["[2020.01.01-00.00.01:000][ 1]Cat: ok".data] :=
  ⟨⟨by decide, by decide⟩, C6_amended 0 _ _ (by decide) (by decide)⟩

/-- C7, counterexample: for the remainder `Warning:  x` (two spaces) the spec
rule yields body `" x"` (everything after `": "`), but the source consumes
the whole whitespace run, producing body `"x"`. -/
theorem C7_counterexample :
    split_log_verbosity "Warning:  x".data = some (Verbosity.Warning, "x".data) ∧
    specSplitVerb "Warning:  x".data = (Verbosity.Warning, " x".data) ∧
    "x".data ≠ " x".data := by decide

/-- C7 (amended): when the remainder starts with `Warning`/`Error`/`Display`
followed by a colon and a nonempty whitespace run, the severity is that
keyword and the body is the nonempty text after the whitespace run; when the
severity pattern does not match, the record gets severity `Log` and its body
is the full remainder unchanged. -/
theorem C7_amended (tz : Int) :
    (∀ (s : List Char) (v : Verbosity) (b : List Char), '\n' ∉ s →
      split_log_verbosity s = some (v, b) →
      v ≠ Verbosity.Log ∧ b ≠ [] ∧ ∃ ws, ws ≠ [] ∧
        (∀ c ∈ ws, isPySpace c = true) ∧ s = verbKw v ++ ':' :: (ws ++ b)) ∧
    (∀ (l : List Char) (g : HeaderGroups) (cat rem : List Char),
      logStartMatch l = some g → split_log_category g.g8 = some (cat, rem) →
      split_log_verbosity rem = none →
      parse_log_start_line tz l = .error PyError.valueError ∨
        ∃ dt, parse_log_start_line tz l =
          .ok (some ⟨dt, Verbosity.Log, cat, g.g8, rem⟩)) := by
  constructor
  · exact fun s v b hnl h => split_log_verbosity_sound hnl h
  · intro l g cat rem hm hsc hsv
    unfold parse_log_start_line
    rw [hm]
    dsimp only
    cases hdt : mkDatetime (digitsToNat g.g1) (digitsToNat g.g2)
        (digitsToNat g.g3) (digitsToNat g.g4) (digitsToNat g.g5)
        (digitsToNat g.g6) (digitsToNat g.g7 * 1000) tz with
    | none => exact Or.inl rfl
    | some dt =>
      dsimp only
      rw [hsc]
      dsimp only
      rw [hsv]
      exact Or.inr ⟨dt, rfl⟩

theorem C7_amended_witness :
    ('\n' ∉ "Warning: x".data ∧
      split_log_verbosity "Warning: x".data =
        some (Verbosity.Warning, "x".data)) ∧
    (Verbosity.Warning ≠ Verbosity.Log ∧ "x".data ≠ [] ∧ ∃ ws, ws ≠ [] ∧
      (∀ c ∈ ws, isPySpace c = true) ∧
      "Warning: x".data = verbKw Verbosity.Warning ++ ':' :: (ws ++ "x".data)) ∧
    (parse_log_start_line 0 "[2020.01.01-00.00.00:000][ 1]Cat: hi".data =
        .error PyError.valueError ∨
      ∃ dt, parse_log_start_line 0 "[2020.01.01-00.00.00:000][ 1]Cat: hi".data =
        .ok (some ⟨dt, Verbosity.Log, "Cat".data, "Cat: hi".data, "hi".data⟩)) :=
  ⟨⟨by decide, by decide⟩,
   (C7_amended 0).1 _ _ _ (by decide) (by decide),
   (C7_amended 0).2 _ ⟨"2020".data, "01".data, "01".data, "00".data, "00".data,
       "00".data, "000".data, "Cat: hi".data⟩ _ _
     (by decide) (by decide) (by decide)⟩

/-- C8: every successful `read` consumes a prefix of the stream and leaves
exactly the unread suffix; when that suffix is nonempty its first line is the
header line that terminated the returned record, pushed back unmodified, so
no header line is skipped or duplicated across a `read()` boundary and
records come in strict stream order. -/
theorem C8_thm (tz : Int) (lines : List (List Char)) (r : Option Log)
    (rest : List (List Char)) (h : read tz lines = .ok (r, rest)) :
    (∃ pre, lines = pre ++ rest) ∧
      (rest = [] ∨ (is_logstart (rest.headD []) = true ∧ r.isSome = true)) :=
  read_dest h

theorem C8_witness :
    (∃ pre, ["[2020.12.14-13.46.03:809][  1]LogTemp: hi".data,
        "[2020.12.14-13.46.04:819][  2]Cat: x".data] =
      pre ++ ["[2020.12.14-13.46.04:819][  2]Cat: x".data]) ∧
    (["[2020.12.14-13.46.04:819][  2]Cat: x".data] = ([] : List (List Char)) ∨
      (is_logstart (["[2020.12.14-13.46.04:819][  2]Cat: x".data].headD [])
          = true ∧
        (some (⟨⟨2020, 12, 14, 13, 46, 3, 809000, 540⟩, Verbosity.Log,
          "LogTemp".data, "LogTemp: hi".data, "hi".data⟩ : Log)).isSome =
          true)) :=
  C8_thm 540 _ _ _ (by decide)

/-- C9: every record returned by `read` has a body that is a
character-for-character suffix of its raw text, a nonempty raw text, and a
timestamp carrying exactly the offset the stream resolved at construction
(the `tz` the scanner was given) — never an unzoned value. -/
theorem C9_thm (tz : Int) (lines : List (List Char)) (lg : Log)
    (rest : List (List Char)) (h : read tz lines = .ok (some lg, rest)) :
    lg.log_body <:+ lg.log ∧ lg.log ≠ [] ∧ lg.date.tz = tz :=
  read_ok_some_inv h

theorem C9_witness :
    ("hi\nmore".data <:+ "LogTemp: hi\nmore".data ∧
      "LogTemp: hi\nmore".data ≠ [] ∧
      (⟨2020, 12, 14, 13, 46, 3, 809000, 540⟩ : Datetime).tz = 540) :=
  C9_thm 540 ["[2020.12.14-13.46.03:809][  1]LogTemp: hi".data, "more".data]
    ⟨⟨2020, 12, 14, 13, 46, 3, 809000, 540⟩, Verbosity.Log, "LogTemp".data,
      "LogTemp: hi\nmore".data, "hi\nmore".data⟩ [] (by decide)

/-- C10: a line consisting of the two leading bracket groups with nothing
after the second bracket is never a header: while scanning it is discarded
(the call proceeds on the rest of the stream unchanged) and while a record is
accumulating it is folded into that record as a continuation line. -/
theorem C10_thm (l : List Char) (h : BracketsOnlyShape l) :
    is_logstart l = false ∧
    (∀ (tz : Int) (ls : List (List Char)), read tz (l :: ls) = read tz ls) ∧
    (∀ (lg : Log) (ls : List (List Char)),
      accumulate lg (l :: ls) = accumulate (foldLine lg l) ls) := by
  obtain ⟨y, mo, d, hh, mi, s, ms, tid, hy, hmo, hd, hhh, hmi, hs, hms,
    htid, rfl⟩ := h
  have hno : is_logstart (headerAssemble y mo d hh mi s ms tid []) = false := by
    unfold is_logstart
    rw [logStartMatch_assemble [] hy hmo hd hhh hmi hs hms htid]
    rfl
  exact ⟨hno, fun tz ls => read_skip_line ls hno,
    fun lg ls => accumulate_skip ls hno⟩

theorem C10_witness :
    is_logstart "[2020.12.14-13.46.03:809][  1]".data = false ∧
    (∀ (tz : Int) (ls : List (List Char)),
      read tz ("[2020.12.14-13.46.03:809][  1]".data :: ls) = read tz ls) ∧
    (∀ (lg : Log) (ls : List (List Char)),
      accumulate lg ("[2020.12.14-13.46.03:809][  1]".data :: ls) =
        accumulate (foldLine lg "[2020.12.14-13.46.03:809][  1]".data) ls) :=
  C10_thm _ ⟨"2020".data, "12".data, "14".data, "13".data, "46".data,
    "03".data, "809".data, "  1".data,
    ⟨by decide, by decide⟩, ⟨by decide, by decide⟩, ⟨by decide, by decide⟩,
    ⟨by decide, by decide⟩, ⟨by decide, by decide⟩, ⟨by decide, by decide⟩,
    ⟨by decide, by decide⟩, ⟨by decide, by decide⟩, by decide⟩

end UELog
